import Mathlib

set_option maxHeartbeats 1000000

/-!
Shallow embedding of the resilience and consistency layer of the ocean-node
repository, covering:

* `src/components/core/utils/findDdoHandler.ts` — the freshness cache check
  (`hasCachedDDO`), the reconciliation sort (`sortFindDDOResults`) and the
  local resolver (`findDDOLocally`);
* `src/utils/blockchain.ts` — the RPC fallback walk (`Blockchain.tryFallbackRPCs`)
  and the signature check (`verifyMessage`);
* `src/components/storage/index.ts` — the storage factory
  (`Storage.getStorageClass`) and the URL storage validation (`UrlStorage`).

Timestamps are modelled as natural numbers: the source converts the
`lastUpdateTime` field with `new Date(...)` and compares the resulting `Date`
values, which compare by their numeric epoch value; the model works directly
with that numeric value.
-/

/-- The `FindDDOResponse` record (`@types/index.ts`), as used by
`findDdoHandler.ts`: the identifier, the transaction of the last update, the
last update time (modelled as the numeric value of the parsed `Date`) and the
peer id of the provider. -/
structure FindDDOResponse where
  id : String
  lastUpdateTx : String
  lastUpdateTime : Nat
  provider : String
deriving DecidableEq

instance : Inhabited FindDDOResponse := ⟨⟨"", "", 0, ""⟩⟩

/-- The comparator passed to `resultList.sort` in `sortFindDDOResults`
(findDdoHandler.ts lines 34-43): returns `1` when `dateB > dateA`, `-1` when
`dateB < dateA`, and `0` otherwise. -/
def findDDOCompare (a b : FindDDOResponse) : Int :=
  if a.lastUpdateTime < b.lastUpdateTime then 1
  else if b.lastUpdateTime < a.lastUpdateTime then -1
  else 0

/-- The ordering induced by the comparator: `a` may be placed before `b`
exactly when the comparator does not require `b` to come first.  A JS
`Array.prototype.sort` result is sorted with respect to this relation. -/
def ddoLe (a b : FindDDOResponse) : Prop := findDDOCompare a b ≤ 0

instance : DecidableRel ddoLe :=
  fun a b => inferInstanceAs (Decidable (findDDOCompare a b ≤ 0))

theorem ddoLe_iff (a b : FindDDOResponse) :
    ddoLe a b ↔ b.lastUpdateTime ≤ a.lastUpdateTime := by
  unfold ddoLe findDDOCompare
  split_ifs with h1 h2 <;> constructor <;> intro h <;> omega

instance : IsTotal FindDDOResponse ddoLe :=
  ⟨fun a b => by simp only [ddoLe_iff]; omega⟩

instance : IsTrans FindDDOResponse ddoLe :=
  ⟨fun a b c hab hbc => by
    rw [ddoLe_iff] at hab hbc ⊢
    omega⟩

/-- `sortFindDDOResults` (findDdoHandler.ts lines 32-46): when the list is
non-empty it calls `resultList.sort(comparator)`, otherwise it returns the
list unchanged.  ECMAScript (2019 and later, as required by the Node versions
this project supports) guarantees `Array.prototype.sort` to be stable, and for
a consistent comparator the stable sorted order is unique, so the call is
modelled by the stable insertion sort with respect to `ddoLe`. -/
def sortFindDDOResults (resultList : List FindDDOResponse) : List FindDDOResponse :=
  if resultList.length > 0 then List.insertionSort ddoLe resultList
  else resultList

/-- `Array.prototype.sort` sorts the array in place and returns a reference to
that same array, so after `sortFindDDOResults` returns, the array the caller
passed in holds exactly the sorted contents (the returned list); for an empty
input the sort call is skipped and the array is unchanged. -/
def callerListAfterSort (resultList : List FindDDOResponse) : List FindDDOResponse :=
  sortFindDDOResults resultList

theorem sortFindDDOResults_eq (l : List FindDDOResponse) :
    sortFindDDOResults l = List.insertionSort ddoLe l := by
  unfold sortFindDDOResults
  split_ifs with h
  · rfl
  · have hl : l = [] := List.eq_nil_of_length_eq_zero (by omega)
    subst hl
    rfl

theorem sortFindDDOResults_perm (l : List FindDDOResponse) :
    (sortFindDDOResults l).Perm l := by
  rw [sortFindDDOResults_eq]
  exact List.perm_insertionSort ddoLe l

theorem sortFindDDOResults_sorted (l : List FindDDOResponse) :
    List.Sorted ddoLe (sortFindDDOResults l) := by
  rw [sortFindDDOResults_eq]
  exact List.sorted_insertionSort ddoLe l

theorem sortFindDDOResults_singleton (r : FindDDOResponse) :
    sortFindDDOResults [r] = [r] := by
  rw [sortFindDDOResults_eq]
  rfl

/-- C1: For every non-empty candidate list, the first element of
`sortFindDDOResults` has `lastUpdateTime` greater than or equal to the
`lastUpdateTime` of every element of the input, and sorting the singleton
list holding that chosen record returns the same record at index 0. -/
theorem sortFindDDOResults_head_newest (l : List FindDDOResponse) (_h : l ≠ []) :
    (∀ x ∈ l, x.lastUpdateTime ≤ (sortFindDDOResults l).headI.lastUpdateTime) ∧
    sortFindDDOResults [(sortFindDDOResults l).headI] = [(sortFindDDOResults l).headI] := by
  refine ⟨?_, sortFindDDOResults_singleton _⟩
  intro x hx
  have hperm := sortFindDDOResults_perm l
  have hsorted := sortFindDDOResults_sorted l
  have hx' : x ∈ sortFindDDOResults l := hperm.mem_iff.mpr hx
  cases hs : sortFindDDOResults l with
  | nil =>
    rw [hs] at hx'
    cases hx'
  | cons hd tl =>
    rw [hs] at hx' hsorted
    simp only [List.headI]
    rcases List.mem_cons.mp hx' with rfl | hmem
    · exact le_refl _
    · exact (ddoLe_iff _ _).mp (List.rel_of_sorted_cons hsorted _ hmem)

/-- Witness for C1 at a concrete two-element list. -/
theorem sortFindDDOResults_head_newest_witness :
    ([⟨"a", "t1", 3, "p1"⟩, ⟨"a", "t2", 7, "p2"⟩] : List FindDDOResponse) ≠ [] ∧
    ((∀ x ∈ ([⟨"a", "t1", 3, "p1"⟩, ⟨"a", "t2", 7, "p2"⟩] : List FindDDOResponse),
        x.lastUpdateTime ≤
          (sortFindDDOResults [⟨"a", "t1", 3, "p1"⟩, ⟨"a", "t2", 7, "p2"⟩]).headI.lastUpdateTime) ∧
      sortFindDDOResults
          [(sortFindDDOResults [⟨"a", "t1", 3, "p1"⟩, ⟨"a", "t2", 7, "p2"⟩]).headI]
        = [(sortFindDDOResults [⟨"a", "t1", 3, "p1"⟩, ⟨"a", "t2", 7, "p2"⟩]).headI]) :=
  ⟨by decide, sortFindDDOResults_head_newest
    [⟨"a", "t1", 3, "p1"⟩, ⟨"a", "t2", 7, "p2"⟩] (by decide)⟩

/-- C2 counterexample: `resultList.sort(...)` sorts the caller's array in
place (and returns that same array), so for the concrete out-of-order input
`[{t=1}, {t=5}]` the caller's list after the call no longer holds the
original elements in their original order. -/
theorem sortFindDDOResults_mutates_input :
    callerListAfterSort [⟨"a", "t1", 1, "p1"⟩, ⟨"a", "t2", 5, "p2"⟩] ≠
      [⟨"a", "t1", 1, "p1"⟩, ⟨"a", "t2", 5, "p2"⟩] := by
  decide

/-- C2 (amended): `sortFindDDOResults` sorts its input list in place — after
the call the caller's list holds exactly the returned contents, a permutation
of the original elements ordered by descending `lastUpdateTime` — and it is a
total function that completes without error on every input, an empty input
being returned as the empty result and a singleton unchanged. -/
theorem sortFindDDOResults_inplace_total (l : List FindDDOResponse) (r : FindDDOResponse) :
    callerListAfterSort l = sortFindDDOResults l ∧
    (callerListAfterSort l).Perm l ∧
    List.Sorted ddoLe (callerListAfterSort l) ∧
    sortFindDDOResults ([] : List FindDDOResponse) = [] ∧
    sortFindDDOResults [r] = [r] :=
  ⟨rfl, sortFindDDOResults_perm l, sortFindDDOResults_sorted l, rfl,
    sortFindDDOResults_singleton r⟩

theorem filter_time_orderedInsert (t : Nat) (a : FindDDOResponse)
    (m : List FindDDOResponse) :
    (List.orderedInsert ddoLe a m).filter (fun x => x.lastUpdateTime == t)
      = if a.lastUpdateTime == t
        then a :: m.filter (fun x => x.lastUpdateTime == t)
        else m.filter (fun x => x.lastUpdateTime == t) := by
  rw [List.orderedInsert_eq_take_drop, List.filter_append]
  by_cases hpa : a.lastUpdateTime = t
  · have htw : (m.takeWhile fun b => decide ¬ ddoLe a b).filter
        (fun x => x.lastUpdateTime == t) = [] := by
      rw [List.filter_eq_nil_iff]
      intro x hx
      have hpx := List.mem_takeWhile_imp hx
      have : ¬ ddoLe a x := by simpa using hpx
      rw [ddoLe_iff] at this
      simp only [beq_iff_eq]
      omega
    rw [htw, List.filter_cons_of_pos (by simpa using hpa)]
    have hm : m.filter (fun x => x.lastUpdateTime == t)
        = ((m.takeWhile fun b => decide ¬ ddoLe a b)
            ++ (m.dropWhile fun b => decide ¬ ddoLe a b)).filter
              (fun x => x.lastUpdateTime == t) := by
      rw [List.takeWhile_append_dropWhile]
    rw [if_pos (by simpa using hpa), hm, List.filter_append, htw]
    simp
  · rw [List.filter_cons_of_neg (by simpa using hpa), if_neg (by simpa using hpa)]
    conv_rhs => rw [← List.takeWhile_append_dropWhile (fun b => decide ¬ ddoLe a b) m]
    rw [List.filter_append]

theorem filter_time_insertionSort (t : Nat) (l : List FindDDOResponse) :
    (List.insertionSort ddoLe l).filter (fun x => x.lastUpdateTime == t)
      = l.filter (fun x => x.lastUpdateTime == t) := by
  induction l with
  | nil => rfl
  | cons a l ih =>
    rw [List.insertionSort, filter_time_orderedInsert, ih, List.filter_cons]

/-- C3: `sortFindDDOResults` is stable — for every timestamp `t`, the
subsequence of records whose `lastUpdateTime` equals `t` appears in the output
in exactly its input order — and in particular for two candidates with equal
`lastUpdateTime` with the local one listed first, the local record stays at
index 0. -/
theorem sortFindDDOResults_stable (l : List FindDDOResponse) (t : Nat)
    (a b : FindDDOResponse) :
    ((sortFindDDOResults l).filter (fun x => x.lastUpdateTime == t)
        = l.filter (fun x => x.lastUpdateTime == t)) ∧
    (a.lastUpdateTime = b.lastUpdateTime → sortFindDDOResults [a, b] = [a, b]) := by
  constructor
  · rw [sortFindDDOResults_eq]
    exact filter_time_insertionSort t l
  · intro hab
    have hle : ddoLe a b := (ddoLe_iff a b).mpr (le_of_eq hab.symm)
    rw [sortFindDDOResults_eq]
    show List.orderedInsert ddoLe a (List.insertionSort ddoLe [b]) = [a, b]
    show List.orderedInsert ddoLe a (List.orderedInsert ddoLe b []) = [a, b]
    show List.orderedInsert ddoLe a [b] = [a, b]
    rw [List.orderedInsert, if_pos hle]

/-- Witness for C3 at a concrete tie: the local record (listed first) and a
remote record share `lastUpdateTime = 5`; the local record is returned at
index 0. -/
theorem sortFindDDOResults_stable_witness :
    (⟨"a", "tL", 5, "local"⟩ : FindDDOResponse).lastUpdateTime
        = (⟨"a", "tR", 5, "remote"⟩ : FindDDOResponse).lastUpdateTime ∧
    sortFindDDOResults [⟨"a", "tL", 5, "local"⟩, ⟨"a", "tR", 5, "remote"⟩]
      = [⟨"a", "tL", 5, "local"⟩, ⟨"a", "tR", 5, "remote"⟩] :=
  ⟨rfl, (sortFindDDOResults_stable [] 0 ⟨"a", "tL", 5, "local"⟩
    ⟨"a", "tR", 5, "remote"⟩).2 rfl⟩

/-- The `FindDDOCommand` task: only its `id` field is read by
`hasCachedDDO`. -/
structure FindDDOCommand where
  id : String

/-- Modelled from the spec: `CACHE_TTL` is imported from `P2P/index.js`, a
file not present in the inspected sources; the spec describes it as a fixed
duration shared by all entries, with 60 seconds used in its example scenario.
No claim depends on its numeric value. -/
def CACHE_TTL : Int := 60000

/-- The node's DDO cache (`node.getDDOCache()`): a JS `Map` from identifier to
`FindDDOResponse` — modelled as a function into `Option`, since a `Map` holds
at most one value per key — together with the cache-level `updated` timestamp
that `hasCachedDDO` reads. -/
structure DDOCache where
  dht : String → Option FindDDOResponse
  updated : Int

/-- `Map.prototype.set`: point update of the key, every other key
unchanged. -/
def dhtSet (dht : String → Option FindDDOResponse) (k : String)
    (v : FindDDOResponse) : String → Option FindDDOResponse :=
  fun q => if q = k then some v else dht q

/-- `hasCachedDDO` (findDdoHandler.ts lines 12-29): if the cache map holds the
task id, compare `now - cacheTime` against `CACHE_TTL` and return `true` when
within the TTL; in every other case (including the stale case, which only
logs) return `false`.  The body performs no cache mutation, so the model
returns the cache unchanged alongside the boolean. -/
def hasCachedDDO (task : FindDDOCommand) (cache : DDOCache) (now : Int) :
    Bool × DDOCache :=
  if (cache.dht task.id).isSome then
    if now - cache.updated ≤ CACHE_TTL then (true, cache)
    else (false, cache)
  else (false, cache)

/-- C4: `hasCachedDDO` returns `true` exactly when the cache holds the
requested identifier and the cached data's age — current time minus the
cache's insertion/refresh timestamp — is at most the fixed TTL, and it never
changes the cache, so a stale-but-present entry stays in the cache. -/
theorem hasCachedDDO_spec (task : FindDDOCommand) (cache : DDOCache) (now : Int) :
    ((hasCachedDDO task cache now).1 = true ↔
      (cache.dht task.id).isSome = true ∧ now - cache.updated ≤ CACHE_TTL) ∧
    (hasCachedDDO task cache now).2 = cache := by
  unfold hasCachedDDO
  split_ifs with h1 h2 <;> simp_all

/-- One row of the local DDO database (`node.getDatabase().ddo`), holding the
fields `findDDOLocally` reads: `ddo.id`, `ddo.event.tx` and
`ddo.metadata.updated`. -/
structure StoredDDO where
  id : String
  eventTx : String
  metadataUpdated : Nat

/-- The `ddoInfo` record built by `findDDOLocally` (findDdoHandler.ts lines
62-67): the stored fields plus the node's own peer id as `provider`. -/
def buildDDOInfo (ddo : StoredDDO) (peerId : String) : FindDDOResponse :=
  { id := ddo.id
    lastUpdateTx := ddo.eventTx
    lastUpdateTime := ddo.metadataUpdated
    provider := peerId }

/-- `findDDOLocally` (findDdoHandler.ts lines 54-82).  The database is
modelled as a lookup function (`retrieve` returns the row or nothing); the
node's peer id is passed explicitly.  If the row exists, build `ddoInfo`; if
the id is not in the cache map (`!dht.has`, i.e. the lookup is `none`), set
it; otherwise fetch the cached record and overwrite it only when the fresh
record is strictly newer.  Return the built record and the resulting cache;
a missing row returns nothing and the cache untouched. -/
def findDDOLocally (db : String → Option StoredDDO) (peerId : String)
    (cache : DDOCache) (id : String) : Option FindDDOResponse × DDOCache :=
  match db id with
  | none => (none, cache)
  | some ddo =>
    let ddoInfo := buildDDOInfo ddo peerId
    match cache.dht ddo.id with
    | none =>
      (some ddoInfo, { cache with dht := dhtSet cache.dht ddo.id ddoInfo })
    | some localCachedData =>
      if localCachedData.lastUpdateTime < ddoInfo.lastUpdateTime then
        (some ddoInfo, { cache with dht := dhtSet cache.dht ddo.id ddoInfo })
      else (some ddoInfo, cache)

/-- C5: when the store holds the identifier, `findDDOLocally` returns the
freshly built record carrying the node's own peer id as provider, leaves every
other cache key untouched, and leaves the cache entry for the record's id
pointing at whichever of the existing entry and the fresh record has the
larger `lastUpdateTime`, an exact tie keeping the existing cached value — so
the per-key maximum invariant is preserved (the map structure itself holds at
most one record per key); when the store lacks the identifier it returns
nothing and the cache is unchanged. -/
theorem findDDOLocally_spec (db : String → Option StoredDDO) (peerId : String)
    (cache : DDOCache) (id : String) :
    (∀ ddo, db id = some ddo →
      (findDDOLocally db peerId cache id).1 = some (buildDDOInfo ddo peerId) ∧
      (buildDDOInfo ddo peerId).provider = peerId ∧
      (findDDOLocally db peerId cache id).2.updated = cache.updated ∧
      (∀ k, k ≠ ddo.id →
        (findDDOLocally db peerId cache id).2.dht k = cache.dht k) ∧
      (findDDOLocally db peerId cache id).2.dht ddo.id =
        some (match cache.dht ddo.id with
          | none => buildDDOInfo ddo peerId
          | some old =>
            if old.lastUpdateTime < (buildDDOInfo ddo peerId).lastUpdateTime
            then buildDDOInfo ddo peerId else old)) ∧
    (db id = none → findDDOLocally db peerId cache id = (none, cache)) := by
  have hred : ∀ ddo, db id = some ddo →
      findDDOLocally db peerId cache id =
        (match cache.dht ddo.id with
          | none =>
            (some (buildDDOInfo ddo peerId),
              { cache with dht := dhtSet cache.dht ddo.id (buildDDOInfo ddo peerId) })
          | some old =>
            if old.lastUpdateTime < (buildDDOInfo ddo peerId).lastUpdateTime then
              (some (buildDDOInfo ddo peerId),
                { cache with dht := dhtSet cache.dht ddo.id (buildDDOInfo ddo peerId) })
            else (some (buildDDOInfo ddo peerId), cache)) := by
    intro ddo hdb
    unfold findDDOLocally
    rw [hdb]
  constructor
  · intro ddo hdb
    rw [hred ddo hdb]
    cases hc : cache.dht ddo.id with
    | none =>
      refine ⟨rfl, rfl, rfl, ?_, ?_⟩
      · intro k hk
        simp [dhtSet, hk]
      · simp [dhtSet]
    | some old =>
      dsimp only
      by_cases hlt : old.lastUpdateTime < (buildDDOInfo ddo peerId).lastUpdateTime
      · rw [if_pos hlt]
        refine ⟨rfl, rfl, rfl, ?_, ?_⟩
        · intro k hk
          simp [dhtSet, hk]
        · simp [dhtSet, hlt]
      · rw [if_neg hlt]
        refine ⟨rfl, rfl, rfl, fun k _ => rfl, ?_⟩
        rw [if_neg hlt]
        exact hc
  · intro hdb
    unfold findDDOLocally
    rw [hdb]

/-- Witness for C5: a store holding one row for identifier `did1` whose fresh
record (`t = 9`) beats a cached record with `t = 4`. -/
theorem findDDOLocally_spec_witness :
    (fun q => if q = "did1" then some (⟨"did1", "tx9", 9⟩ : StoredDDO) else none) "did1"
        = some (⟨"did1", "tx9", 9⟩ : StoredDDO) ∧
    (findDDOLocally
        (fun q => if q = "did1" then some (⟨"did1", "tx9", 9⟩ : StoredDDO) else none)
        "peerSelf"
        ⟨fun q => if q = "did1" then some ⟨"did1", "tx4", 4, "peerOld"⟩ else none, 100⟩
        "did1").1
      = some (buildDDOInfo ⟨"did1", "tx9", 9⟩ "peerSelf") :=
  ⟨rfl,
    ((findDDOLocally_spec
        (fun q => if q = "did1" then some (⟨"did1", "tx9", 9⟩ : StoredDDO) else none)
        "peerSelf"
        ⟨fun q => if q = "did1" then some ⟨"did1", "tx4", 4, "peerOld"⟩ else none, 100⟩
        "did1").1 ⟨"did1", "tx9", 9⟩ rfl).1⟩

/-- One observable step of the fallback walk in `Blockchain.tryFallbackRPCs`
(blockchain.ts lines 77-96).  Each loop iteration, in source order:
unsubscribe the old provider's network listener, build a new
`JsonRpcProvider` for the candidate RPC together with a new signing wallet
bound to it, re-register the network event listener, wait the fixed
2000 ms grace period, then consult `isNetworkReady()`. -/
inductive FallbackEvent where
  | unsubscribe : FallbackEvent
  | rebuildProviderAndWallet : String → FallbackEvent
  | registerNetworkEvents : String → FallbackEvent
  | sleepMs : Nat → FallbackEvent
  | checkNetworkReady : String → Bool → FallbackEvent
deriving DecidableEq

/-- The event trace of one loop iteration for candidate `rpc`.  The
environment oracle `ready` answers, per candidate endpoint, whether
`isNetworkReady()` reports the network reachable once the grace period has
elapsed (combining the asynchronous network event, `provider.ready` and the
active `detectNetwork` probe, all external to this core). -/
def attemptRPC (ready : String → Bool) (rpc : String) : List FallbackEvent :=
  [ .unsubscribe, .rebuildProviderAndWallet rpc, .registerNetworkEvents rpc,
    .sleepMs 2000, .checkNetworkReady rpc (ready rpc) ]

/-- The traces of a list of candidates, in list order. -/
def attemptsOver (ready : String → Bool) (l : List String) : List FallbackEvent :=
  (l.map (attemptRPC ready)).flatten

/-- The loop `for (let i = this.knownRPCs.length - 1; i >= 0; i--)` of
`tryFallbackRPCs`, modelled by the number of indices still to visit: at fuel
`i + 1` the loop body runs for index `i`, returning `true` as soon as
`isNetworkReady()` confirms a candidate and recursing to index `i - 1`
otherwise; when the indices are exhausted the method returns `false`. -/
def tryFallbackFrom (ready : String → Bool) (rpcs : List String) :
    Nat → Bool × List FallbackEvent
  | 0 => (false, [])
  | i + 1 =>
    let rpc := rpcs.getD i ""
    if ready rpc then (true, attemptRPC ready rpc)
    else
      let rest := tryFallbackFrom ready rpcs i
      (rest.1, attemptRPC ready rpc ++ rest.2)

/-- `Blockchain.tryFallbackRPCs` (blockchain.ts lines 77-96): walk
`knownRPCs` from the last index down to index 0.  The returned boolean is the
method's result; the returned trace is the ordered list of observable steps
it performed. -/
def tryFallbackRPCs (ready : String → Bool) (rpcs : List String) :
    Bool × List FallbackEvent :=
  tryFallbackFrom ready rpcs rpcs.length

/-- The `knownRPCs` list as assembled by the `Blockchain` constructor
(blockchain.ts lines 29-33): the primary `rpc` is pushed first, then the
fallback RPCs in their listed order. -/
def knownRPCsOf (rpc : String) (fallbackRPCs : List String) : List String :=
  rpc :: fallbackRPCs

/-- The candidates actually tried in a fallback trace, in the order their
providers were rebuilt. -/
def triedRPCs (tr : List FallbackEvent) : List String :=
  tr.filterMap fun e =>
    match e with
    | .rebuildProviderAndWallet r => some r
    | _ => none

theorem attemptsOver_nil (ready : String → Bool) : attemptsOver ready [] = [] := rfl

theorem attemptsOver_cons (ready : String → Bool) (r : String) (l : List String) :
    attemptsOver ready (r :: l) = attemptRPC ready r ++ attemptsOver ready l := by
  simp [attemptsOver]

theorem take_succ_drop_eq (rpcs : List String) (i j : Nat) (hij : j ≤ i)
    (hi : i < rpcs.length) :
    (rpcs.take (i + 1)).drop j = (rpcs.take i).drop j ++ [rpcs.getD i ""] := by
  rw [List.take_succ]
  rw [List.drop_append_of_le_length (by rw [List.length_take_of_le (by omega)]; omega)]
  congr 1
  simp [List.getD_eq_getElem?_getD, List.getElem?_eq_getElem hi]

theorem tryFallbackFrom_found (ready : String → Bool) (rpcs : List String)
    (j : Nat) (hready : ready (rpcs.getD j "") = true) :
    ∀ i, i ≤ rpcs.length → j < i →
      (∀ k, j < k → k < i → ready (rpcs.getD k "") = false) →
      tryFallbackFrom ready rpcs i
        = (true, attemptsOver ready ((rpcs.take i).drop j).reverse) := by
  intro i
  induction i with
  | zero => omega
  | succ i ih =>
    intro hlen hji hlater
    rcases Nat.lt_or_ge j i with hji' | hji'
    · have hfail : ready (rpcs.getD i "") = false := hlater i hji' (Nat.lt_succ_self i)
      have hrest := ih (by omega) hji' (fun k hk1 hk2 => hlater k hk1 (by omega))
      rw [take_succ_drop_eq rpcs i j (by omega) (by omega), List.reverse_append,
        List.reverse_singleton, List.singleton_append, attemptsOver_cons]
      simp only [tryFallbackFrom, hfail]
      rw [hrest]
      simp
    · have hj : j = i := by omega
      subst hj
      simp only [tryFallbackFrom]
      rw [hready]
      simp only [if_true]
      have hdrop : ((rpcs.take (j + 1)).drop j) = [rpcs.getD j ""] := by
        rw [take_succ_drop_eq rpcs j j (le_refl j) (by omega)]
        rw [List.drop_eq_nil_of_le (by rw [List.length_take_of_le (by omega)])]
        rfl
      rw [hdrop, List.reverse_singleton, attemptsOver_cons, attemptsOver_nil,
        List.append_nil]

theorem tryFallbackFrom_all_fail (ready : String → Bool) (rpcs : List String) :
    ∀ i, i ≤ rpcs.length →
      (∀ k, k < i → ready (rpcs.getD k "") = false) →
      tryFallbackFrom ready rpcs i
        = (false, attemptsOver ready ((rpcs.take i).reverse)) := by
  intro i
  induction i with
  | zero => intro _ _; rfl
  | succ i ih =>
    intro hlen hfail
    have hfi : ready (rpcs.getD i "") = false := hfail i (Nat.lt_succ_self i)
    have hrest := ih (by omega) (fun k hk => hfail k (by omega))
    have htake : rpcs.take (i + 1) = rpcs.take i ++ [rpcs.getD i ""] := by
      have := take_succ_drop_eq rpcs i 0 (Nat.zero_le i) (by omega)
      simpa using this
    rw [htake, List.reverse_append, List.reverse_singleton, List.singleton_append,
      attemptsOver_cons]
    simp only [tryFallbackFrom, hfi]
    rw [hrest]
    simp

theorem tryFallbackFrom_true_of_ready (ready : String → Bool) (rpcs : List String) :
    ∀ i, (∃ k, k < i ∧ ready (rpcs.getD k "") = true) →
      (tryFallbackFrom ready rpcs i).1 = true := by
  intro i
  induction i with
  | zero =>
    rintro ⟨k, hk, _⟩
    omega
  | succ i ih =>
    rintro ⟨k, hk, hkready⟩
    by_cases hi : ready (rpcs.getD i "") = true
    · simp only [tryFallbackFrom]
      rw [hi]
      simp
    · have hki : k < i := by
        rcases Nat.lt_or_ge k i with h | h
        · exact h
        · have : k = i := by omega
          subst this
          exact absurd hkready hi
      simp only [tryFallbackFrom, Bool.not_eq_true] at hi ⊢
      rw [hi]
      simpa using ih ⟨k, hki, hkready⟩

/-- C6: the fallback walk visits the constructor-ordered endpoint list
(primary at index 0, fallbacks after it) from the last index down to index 0;
for each candidate it unsubscribes the old listener, rebuilds the provider
and the signing wallet, re-registers the network events, sleeps the fixed
2000 ms grace period and checks `isNetworkReady()`; at the first (i.e.
highest-indexed) candidate confirmed ready it returns `true`, with no
lower-indexed candidate — in particular, no earlier fallback and never the
primary unless everything after it failed — appearing in its trace. -/
theorem tryFallbackRPCs_first_ready (ready : String → Bool) (primary : String)
    (fallbacks : List String) (j : Nat)
    (hj : j < (knownRPCsOf primary fallbacks).length)
    (hready : ready ((knownRPCsOf primary fallbacks).getD j "") = true)
    (hlater : ∀ k, j < k → k < (knownRPCsOf primary fallbacks).length →
      ready ((knownRPCsOf primary fallbacks).getD k "") = false) :
    knownRPCsOf primary fallbacks = primary :: fallbacks ∧
    tryFallbackRPCs ready (knownRPCsOf primary fallbacks)
      = (true, attemptsOver ready
          (((knownRPCsOf primary fallbacks).drop j).reverse)) := by
  refine ⟨rfl, ?_⟩
  unfold tryFallbackRPCs
  have h := tryFallbackFrom_found ready (knownRPCsOf primary fallbacks) j hready
    (knownRPCsOf primary fallbacks).length (le_refl _) hj hlater
  rwa [List.take_length] at h

/-- Witness for C6 at the spec's example pool `[primary, f1, f2]` with only
`f2` reachable: the walk confirms `f2` on its first attempt and its trace
contains the single attempt block for `f2`. -/
theorem tryFallbackRPCs_first_ready_witness :
    (2 < (knownRPCsOf "primary" ["f1", "f2"]).length ∧
      (fun r => r == "f2") ((knownRPCsOf "primary" ["f1", "f2"]).getD 2 "") = true) ∧
    tryFallbackRPCs (fun r => r == "f2") (knownRPCsOf "primary" ["f1", "f2"])
      = (true, attemptsOver (fun r => r == "f2")
          (((knownRPCsOf "primary" ["f1", "f2"]).drop 2).reverse)) :=
  ⟨⟨by decide, by decide⟩,
    (tryFallbackRPCs_first_ready (fun r => r == "f2") "primary" ["f1", "f2"] 2
      (by decide) (by decide) (fun k hk1 hk2 => by
        simp only [knownRPCsOf, List.length_cons, List.length_nil] at hk2
        exact absurd hk1 (by omega))).2⟩

/-- C7: `tryFallbackRPCs` returns the boolean `false` — it is a total
function, not a thrown fault — exactly when no endpoint of the pool is
confirmed by `isNetworkReady()`, and in that case its trace is one single
pass over the reversed pool: every endpoint tried exactly once, with no
further retry after exhaustion. -/
theorem tryFallbackRPCs_exhausted (ready : String → Bool) (rpcs : List String) :
    ((tryFallbackRPCs ready rpcs).1 = false ↔ ∀ r ∈ rpcs, ready r = false) ∧
    ((∀ r ∈ rpcs, ready r = false) →
      (tryFallbackRPCs ready rpcs).2 = attemptsOver ready rpcs.reverse ∧
      triedRPCs (tryFallbackRPCs ready rpcs).2 = rpcs.reverse) := by
  have hall : (∀ r ∈ rpcs, ready r = false) →
      tryFallbackRPCs ready rpcs = (false, attemptsOver ready rpcs.reverse) := by
    intro hfail
    unfold tryFallbackRPCs
    have h := tryFallbackFrom_all_fail ready rpcs rpcs.length (le_refl _)
      (fun k hk => by
        have hmem : rpcs.getD k "" ∈ rpcs := by
          rw [List.getD_eq_getElem?_getD, List.getElem?_eq_getElem hk]
          exact List.getElem_mem hk
        exact hfail _ hmem)
    rwa [List.take_length] at h
  have htried : ∀ l, triedRPCs (attemptsOver ready l) = l := by
    intro l
    induction l with
    | nil => rfl
    | cons r l ih =>
      rw [attemptsOver_cons]
      simp only [triedRPCs] at ih ⊢
      rw [List.filterMap_append]
      rw [ih]
      rfl
  constructor
  · constructor
    · intro hfalse r hr
      by_contra hnot
      have hrt : ready r = true := by
        cases hre : ready r
        · exact absurd hre hnot
        · rfl
      obtain ⟨k, hk, hkr⟩ := List.mem_iff_getElem.mp hr
      have hkready : ready (rpcs.getD k "") = true := by
        rw [List.getD_eq_getElem?_getD, List.getElem?_eq_getElem hk]
        simpa [hkr] using hrt
      have := tryFallbackFrom_true_of_ready ready rpcs rpcs.length ⟨k, hk, hkready⟩
      unfold tryFallbackRPCs at hfalse
      rw [this] at hfalse
      cases hfalse
    · intro hfail
      rw [hall hfail]
  · intro hfail
    rw [hall hfail]
    exact ⟨rfl, htried rpcs.reverse⟩

/-- ASCII lowercasing, the behaviour of `String.prototype.toLowerCase` on the
ASCII hex addresses `verifyMessage` compares. -/
def toLowerAscii (s : String) : String :=
  ⟨s.data.map fun c => if c.isUpper then Char.ofNat (c.toNat + 32) else c⟩

/-- `verifyMessage` (blockchain.ts lines 130-148).  The external ethers
primitives are oracles: `isAddr` models `isAddress`, and `recoverSigner`
models `ethers.verifyMessage(message, signature)`, returning the recovered
signer address or nothing when recovery throws; the enclosing try/catch turns
any such throw into `false`.  An invalid address logs and returns `false`; a
case-insensitive mismatch of the recovered signer returns `false`; otherwise
the function returns `true`. -/
def verifyMessage (isAddr : String → Bool)
    (recoverSigner : String → String → Option String)
    (message address signature : String) : Bool :=
  if isAddr address = false then false
  else
    match recoverSigner message signature with
    | none => false
    | some signerAddr =>
      if toLowerAscii signerAddr ≠ toLowerAscii address then false
      else true

/-- C8: `verifyMessage` is a total boolean function — every failure path,
including a throwing signature recovery, yields `false` rather than an
exception — returning `false` on an invalid web3 address, on failed
recovery, and on a case-insensitive mismatch, and returning `true` exactly
when the address is valid, recovery succeeds and the recovered signer equals
the given address case-insensitively. -/
theorem verifyMessage_spec (isAddr : String → Bool)
    (recoverSigner : String → String → Option String)
    (message address signature : String) :
    (verifyMessage isAddr recoverSigner message address signature = true ↔
      isAddr address = true ∧
      ∃ s, recoverSigner message signature = some s ∧
        toLowerAscii s = toLowerAscii address) ∧
    (isAddr address = false →
      verifyMessage isAddr recoverSigner message address signature = false) ∧
    (recoverSigner message signature = none →
      verifyMessage isAddr recoverSigner message address signature = false) ∧
    (∀ s, recoverSigner message signature = some s →
      toLowerAscii s ≠ toLowerAscii address →
      verifyMessage isAddr recoverSigner message address signature = false) := by
  unfold verifyMessage
  by_cases ha : isAddr address = false
  · rw [if_pos ha]
    refine ⟨?_, fun _ => rfl, fun _ => rfl, fun _ _ _ => rfl⟩
    constructor
    · intro h
      cases h
    · rintro ⟨h1, -⟩
      rw [ha] at h1
      cases h1
  · rw [if_neg ha]
    have ha' : isAddr address = true := by
      cases h : isAddr address
      · exact absurd h ha
      · rfl
    cases hr : recoverSigner message signature with
    | none =>
      dsimp only
      refine ⟨⟨?_, ?_⟩, ?_, ?_, ?_⟩
      · intro h
        cases h
      · rintro ⟨-, s, hs, -⟩
        cases hs
      · intro h
        exact absurd h ha
      · intro _
        rfl
      · intro s hs
        cases hs
    | some signerAddr =>
      dsimp only
      by_cases hm : toLowerAscii signerAddr ≠ toLowerAscii address
      · rw [if_pos hm]
        refine ⟨⟨?_, ?_⟩, ?_, ?_, ?_⟩
        · intro h
          cases h
        · rintro ⟨-, s, hs, heq⟩
          cases hs
          exact absurd heq hm
        · intro h
          exact absurd h ha
        · intro h
          cases h
        · intro s hs hne
          rfl
      · rw [if_neg hm]
        rw [not_not] at hm
        refine ⟨⟨?_, ?_⟩, ?_, ?_, ?_⟩
        · intro _
          exact ⟨ha', signerAddr, rfl, hm⟩
        · intro _
          rfl
        · intro h
          exact absurd h ha
        · intro h
          cases h
        · intro s hs hne
          cases hs
          exact absurd hm hne

/-- Witness for C8: a valid address whose recovered signer matches up to
case. -/
theorem verifyMessage_spec_witness :
    ((fun a => a == "0xAB12") "0xAB12" = false →
      verifyMessage (fun a => a == "0xAB12") (fun _ _ => some "0xab12")
        "msg" "0xAB12" "sig" = false) ∧
    verifyMessage (fun a => a == "0xAB12") (fun _ _ => some "0xab12")
      "msg" "0xAB12" "sig" = true :=
  ⟨(verifyMessage_spec (fun a => a == "0xAB12") (fun _ _ => some "0xab12")
      "msg" "0xAB12" "sig").2.1,
    (verifyMessage_spec (fun a => a == "0xAB12") (fun _ _ => some "0xab12")
      "msg" "0xAB12" "sig").1.mpr ⟨by decide, "0xab12", rfl, by decide⟩⟩

/-- A file object as passed to the storage classes (storage/index.ts).  The
source types it `any` and reads per-backend fields; JS field absence and the
empty string are both falsy under the `!field` checks the validators use, so
each field is a `String` with `""` standing for absent. -/
structure FileObject where
  type : String
  url : String
  method : String
  hash : String
  transactionId : String
deriving DecidableEq

/-- The process environment read by the validators: `process.env.IPFS_GATEWAY`
and `process.env.ARWEAVE_GATEWAY`, `""` standing for unset. -/
structure EnvVars where
  arweaveGateway : String
  ipfsGateway : String
deriving DecidableEq

/-- Character-list model of `String.prototype.startsWith`: does the second
list begin the first? -/
def startsWithChars : List Char → List Char → Bool
  | _, [] => true
  | [], _ :: _ => false
  | c :: cs, p :: ps => c = p && startsWithChars cs ps

/-- Character-list splitting on `/`, the slash structure the regex of
`isFilePath` inspects. -/
def splitSlash : List Char → List (List Char)
  | [] => [[]]
  | c :: cs =>
    match splitSlash cs with
    | [] => [[]]
    | seg :: rest =>
      if c = '/' then [] :: seg :: rest else (c :: seg) :: rest

/-- `UrlStorage.isFilePath` (storage/index.ts lines 170-178): a url starting
with `http://` or `https://` is not a path; otherwise the regex
`^(.+)\/([^/]+)$` must match, i.e. the url splits as `pre / lastSegment`
where `pre` is non-empty (it may itself contain slashes, the regex group
being greedy) and the last segment is non-empty and slash-free.  In terms of
the slash-split segments: at least one slash, a non-empty last segment, and
the part before the last slash non-empty. -/
def isFilePath (url : String) : Bool :=
  if startsWithChars url.data "http://".data
      || startsWithChars url.data "https://".data then false
  else
    let parts := splitSlash url.data
    decide (2 ≤ parts.length) && decide (parts.getLastD [] ≠ [])
      && decide (parts.dropLast ≠ [[]])

/-- `UrlStorage.validate` (storage/index.ts lines 155-168), returning the
`[boolean, string]` pair of the source. -/
def urlValidate (file : FileObject) : Bool × String :=
  if file.url = "" || file.method = "" then (false, "URL or method are missing")
  else if !(["get", "post"].contains (toLowerAscii file.method)) then
    (false, "Invalid method for URL")
  else if isFilePath file.url then (false, "URL looks like a file path")
  else (true, "")

/-- The `UrlStorage` constructor (storage/index.ts lines 147-153): run
`validate` and throw when it fails; a successfully constructed storage is the
validated file.  Errors are modelled with `Except`. -/
def mkUrlStorage (file : FileObject) : Except String FileObject :=
  if (urlValidate file).1 = false then
    Except.error ("Error validationg the URL file: " ++ (urlValidate file).2)
  else Except.ok file

/-- `IpfsStorage.validate` (storage/index.ts lines 280-290). -/
def ipfsValidate (env : EnvVars) (file : FileObject) : Bool × String :=
  if env.ipfsGateway = "" then (false, "IPFS gateway is not provided!")
  else if file.hash = "" then (false, "Missing CID")
  else (true, "")

/-- The `IpfsStorage` constructor (storage/index.ts lines 271-278). -/
def mkIpfsStorage (env : EnvVars) (file : FileObject) : Except String FileObject :=
  if (ipfsValidate env file).1 = false then
    Except.error ("Error validationg the IPFS file: " ++ (ipfsValidate env file).2)
  else Except.ok file

/-- `ArweaveStorage.validate` (storage/index.ts lines 224-233). -/
def arweaveValidate (env : EnvVars) (file : FileObject) : Bool × String :=
  if env.arweaveGateway = "" then (false, "Arweave gateway is not provided!")
  else if file.transactionId = "" then (false, "Missing transaction ID")
  else (true, "")

/-- The `ArweaveStorage` constructor (storage/index.ts lines 215-222). -/
def mkArweaveStorage (env : EnvVars) (file : FileObject) : Except String FileObject :=
  if (arweaveValidate env file).1 = false then
    Except.error ("Error validationg the Arweave file: " ++ (arweaveValidate env file).2)
  else Except.ok file

/-- The closed set of storage classes `Storage.getStorageClass` can return. -/
inductive StorageClass where
  | urlStorage : FileObject → StorageClass
  | ipfsStorage : FileObject → StorageClass
  | arweaveStorage : FileObject → StorageClass
deriving DecidableEq

/-- `Storage.getStorageClass` (storage/index.ts lines 95-107): dispatch on
`file.type`; the three recognised tags construct the matching class (whose
constructor may itself throw a validation error), every other tag throws
`Invalid storage type`. -/
def getStorageClass (env : EnvVars) (file : FileObject) :
    Except String StorageClass :=
  if file.type = "url" then (mkUrlStorage file).map StorageClass.urlStorage
  else if file.type = "ipfs" then (mkIpfsStorage env file).map StorageClass.ipfsStorage
  else if file.type = "arweave" then
    (mkArweaveStorage env file).map StorageClass.arweaveStorage
  else Except.error ("Invalid storage type: " ++ file.type)

/-- `UrlStorage.getDownloadUrl` (storage/index.ts lines 180-185): the file's
url when validation passes, otherwise the JS `null`, modelled as `none`. -/
def urlGetDownloadUrl (file : FileObject) : Option String :=
  if (urlValidate file).1 = true then some file.url else none

/-- C9 counterexample: for the concrete file `{type: "url", url: "",
method: ""}` — whose type tag IS `"url"` — `getStorageClass` does not return
a `UrlStorage`: the `UrlStorage` constructor throws its validation error. -/
theorem getStorageClass_url_throws :
    ({ type := "url", url := "", method := "", hash := "", transactionId := "" }
        : FileObject).type = "url" ∧
    getStorageClass ⟨"gw", "gw"⟩
        { type := "url", url := "", method := "", hash := "", transactionId := "" }
      = Except.error "Error validationg the URL file: URL or method are missing" := by
  exact ⟨rfl, rfl⟩

/-- C9 (amended): `getStorageClass` returns a `UrlStorage` when `file.type`
is `"url"` and URL validation passes, an `IpfsStorage` when it is `"ipfs"`
and IPFS validation passes, and an `ArweaveStorage` when it is `"arweave"`
and Arweave validation passes; when the selected constructor's validation
fails it throws that validation error, and for every other type value it
throws `Invalid storage type`; consequently any storage object it returns
matches its type tag. -/
theorem getStorageClass_spec (env : EnvVars) (file : FileObject) :
    (∀ s, getStorageClass env file = Except.ok s →
      (file.type = "url" ∧ s = StorageClass.urlStorage file ∧
        (urlValidate file).1 = true) ∨
      (file.type = "ipfs" ∧ s = StorageClass.ipfsStorage file ∧
        (ipfsValidate env file).1 = true) ∨
      (file.type = "arweave" ∧ s = StorageClass.arweaveStorage file ∧
        (arweaveValidate env file).1 = true)) ∧
    (file.type = "url" → (urlValidate file).1 = true →
      getStorageClass env file = Except.ok (StorageClass.urlStorage file)) ∧
    (file.type = "ipfs" → (ipfsValidate env file).1 = true →
      getStorageClass env file = Except.ok (StorageClass.ipfsStorage file)) ∧
    (file.type = "arweave" → (arweaveValidate env file).1 = true →
      getStorageClass env file = Except.ok (StorageClass.arweaveStorage file)) ∧
    (file.type ≠ "url" → file.type ≠ "ipfs" → file.type ≠ "arweave" →
      getStorageClass env file
        = Except.error ("Invalid storage type: " ++ file.type)) := by
  unfold getStorageClass mkUrlStorage mkIpfsStorage mkArweaveStorage
  split_ifs with h1 h2 h3 h4 h5 h6
  · refine ⟨?_, ?_, ?_, ?_, ?_⟩
    · intro s hs
      simp only [Except.map] at hs
      cases hs
    · intro _ hv
      simp [hv] at h2
    · intro hty _
      simp [h1] at hty
    · intro hty _
      simp [h1] at hty
    · intro hne _ _
      exact absurd h1 hne
  · have hv : (urlValidate file).1 = true := by
      cases h : (urlValidate file).1
      · exact absurd h h2
      · rfl
    refine ⟨?_, ?_, ?_, ?_, ?_⟩
    · intro s hs
      simp only [Except.map] at hs
      injection hs with hs
      exact Or.inl ⟨h1, hs.symm, hv⟩
    · intro _ _
      rfl
    · intro hty _
      simp [h1] at hty
    · intro hty _
      simp [h1] at hty
    · intro hne _ _
      exact absurd h1 hne
  · refine ⟨?_, ?_, ?_, ?_, ?_⟩
    · intro s hs
      simp only [Except.map] at hs
      cases hs
    · intro hty _
      exact absurd hty h1
    · intro _ hv
      simp [hv] at h4
    · intro hty _
      simp [h3] at hty
    · intro _ hne _
      exact absurd h3 hne
  · have hv : (ipfsValidate env file).1 = true := by
      cases h : (ipfsValidate env file).1
      · exact absurd h h4
      · rfl
    refine ⟨?_, ?_, ?_, ?_, ?_⟩
    · intro s hs
      simp only [Except.map] at hs
      injection hs with hs
      exact Or.inr (Or.inl ⟨h3, hs.symm, hv⟩)
    · intro hty _
      exact absurd hty h1
    · intro _ _
      rfl
    · intro hty _
      simp [h3] at hty
    · intro _ hne _
      exact absurd h3 hne
  · refine ⟨?_, ?_, ?_, ?_, ?_⟩
    · intro s hs
      simp only [Except.map] at hs
      cases hs
    · intro hty _
      exact absurd hty h1
    · intro hty _
      exact absurd hty h3
    · intro _ hv
      simp [hv] at h6
    · intro _ _ hne
      exact absurd h5 hne
  · have hv : (arweaveValidate env file).1 = true := by
      cases h : (arweaveValidate env file).1
      · exact absurd h h6
      · rfl
    refine ⟨?_, ?_, ?_, ?_, ?_⟩
    · intro s hs
      simp only [Except.map] at hs
      injection hs with hs
      exact Or.inr (Or.inr ⟨h5, hs.symm, hv⟩)
    · intro hty _
      exact absurd hty h1
    · intro hty _
      exact absurd hty h3
    · intro _ _
      rfl
    · intro _ _ hne
      exact absurd h5 hne
  · refine ⟨?_, ?_, ?_, ?_, ?_⟩
    · intro s hs
      cases hs
    · intro hty _
      exact absurd hty h1
    · intro hty _
      exact absurd hty h3
    · intro hty _
      exact absurd hty h5
    · intro _ _ _
      rfl

/-- Witness for C9: a well-formed URL file is dispatched to a `UrlStorage`. -/
theorem getStorageClass_spec_witness :
    ((⟨"url", "http://a.com/data", "GET", "", ""⟩ : FileObject).type = "url" ∧
      (urlValidate ⟨"url", "http://a.com/data", "GET", "", ""⟩).1 = true) ∧
    getStorageClass ⟨"", ""⟩ ⟨"url", "http://a.com/data", "GET", "", ""⟩
      = Except.ok (StorageClass.urlStorage
          ⟨"url", "http://a.com/data", "GET", "", ""⟩) :=
  ⟨⟨rfl, by decide⟩,
    (getStorageClass_spec ⟨"", ""⟩
        ⟨"url", "http://a.com/data", "GET", "", ""⟩).2.1 rfl (by decide)⟩

theorem urlValidate_true (file : FileObject) (h : (urlValidate file).1 = true) :
    urlValidate file = (true, "") ∧ file.url ≠ "" ∧
    (toLowerAscii file.method = "get" ∨ toLowerAscii file.method = "post") ∧
    isFilePath file.url = false := by
  unfold urlValidate at h ⊢
  split_ifs at h ⊢ with hA hB hC
  refine ⟨rfl, ?_, ?_, ?_⟩
  · intro hu
    exact hA (by simp [hu])
  · have hcontain : (["get", "post"].contains (toLowerAscii file.method)) = true := by
      cases hc : (["get", "post"].contains (toLowerAscii file.method))
      · refine absurd ?_ hB
        rw [hc]
        decide
      · rfl
    simpa using hcontain
  · cases hif : isFilePath file.url
    · rfl
    · exact absurd hif hC

/-- C10: every `UrlStorage` the constructor successfully builds carries the
file it was given, whose validation is `[true, ""]` — the url is non-empty,
the method is get or post case-insensitively, and the url is not a bare file
path — and on such a storage `getDownloadUrl` returns the file's url, its
null branch being unreachable. -/
theorem urlStorage_constructed_valid (file s : FileObject)
    (h : mkUrlStorage file = Except.ok s) :
    s = file ∧
    urlValidate s = (true, "") ∧
    s.url ≠ "" ∧
    (toLowerAscii s.method = "get" ∨ toLowerAscii s.method = "post") ∧
    isFilePath s.url = false ∧
    urlGetDownloadUrl s = some s.url := by
  unfold mkUrlStorage at h
  by_cases hv : (urlValidate file).1 = false
  · rw [if_pos hv] at h
    cases h
  · rw [if_neg hv] at h
    injection h with h
    subst h
    have hv' : (urlValidate file).1 = true := by
      cases hb : (urlValidate file).1
      · exact absurd hb hv
      · rfl
    obtain ⟨hval, hu, hm, hp⟩ := urlValidate_true file hv'
    refine ⟨rfl, hval, hu, hm, hp, ?_⟩
    unfold urlGetDownloadUrl
    rw [if_pos hv']

/-- Witness for C10 at a concretely constructed `UrlStorage`. -/
theorem urlStorage_constructed_valid_witness :
    mkUrlStorage (⟨"url", "https://x.io/f.txt", "Post", "", ""⟩ : FileObject)
        = Except.ok (⟨"url", "https://x.io/f.txt", "Post", "", ""⟩ : FileObject) ∧
    urlGetDownloadUrl (⟨"url", "https://x.io/f.txt", "Post", "", ""⟩ : FileObject)
      = some (⟨"url", "https://x.io/f.txt", "Post", "", ""⟩ : FileObject).url :=
  ⟨by rfl,
    (urlStorage_constructed_valid ⟨"url", "https://x.io/f.txt", "Post", "", ""⟩
      ⟨"url", "https://x.io/f.txt", "Post", "", ""⟩ (by rfl)).2.2.2.2.2⟩

/-- Witness for C7: a two-endpoint pool where no endpoint is reachable — the
walk returns `false` after trying each endpoint exactly once, last first. -/
theorem tryFallbackRPCs_exhausted_witness :
    (∀ r ∈ ["p", "f1"], (fun _ : String => false) r = false) ∧
    (tryFallbackRPCs (fun _ : String => false) ["p", "f1"]).1 = false ∧
    triedRPCs (tryFallbackRPCs (fun _ : String => false) ["p", "f1"]).2
      = ["p", "f1"].reverse :=
  ⟨by decide,
    (tryFallbackRPCs_exhausted (fun _ : String => false) ["p", "f1"]).1.mpr
      (by decide),
    ((tryFallbackRPCs_exhausted (fun _ : String => false) ["p", "f1"]).2
      (by decide)).2⟩
